import Mathlib

/-!
Verification of the training-harness core of `chem_tensorflow.py`
(class `ChemModel`): configuration resolution, dataset schema inference,
epoch aggregation, the train loop with early stopping, the abstract
extension points, and the bounded minibatch streaming queue.

Machine-level conventions of the shallow embedding:
* Python floats are modelled as rationals (`ℚ`); the initial
  `float("+inf")` of the best-validation tracker is modelled as `none`
  in an `Option ℚ`, with `none` greater than every rational.
* Python dicts used as parameter mappings are modelled as functions
  `K → Option V`; `dict.update` is key-by-key override.
* `raise Exception(msg)` is modelled as `Except.error msg`.
* Wall-clock quantities (timestamps, throughput) are taken from oracle
  functions, since the embedding does not model real time.
-/

/-! ### Configuration resolution (`ChemModel.__init__`, lines 42-51) -/

/-- A Python dict viewed as a partial mapping from keys to values. -/
def PyDict (K V : Type) : Type := K → Option V

/-- `base.update(over)`: keys present in `over` override `base`,
keys absent from `over` keep their value from `base`. -/
def dictUpdate {K V : Type} (base over : PyDict K V) : PyDict K V :=
  fun k => match over k with
    | some v => some v
    | none => base k

/-- Parameter resolution of `ChemModel.__init__`: start from the defaults,
apply the config-file contents when a config file was given, then apply the
inline `--config` contents when given. -/
def resolveParams {K V : Type} (defaults : PyDict K V)
    (fileCfg inlineCfg : Option (PyDict K V)) : PyDict K V :=
  let p1 := match fileCfg with
    | some f => dictUpdate defaults f
    | none => defaults
  match inlineCfg with
  | some c => dictUpdate p1 c
  | none => p1

/-! ### Epoch enumeration (`ChemModel.train`, line 179) -/

/-- Python `range(a, b)`: the integers `a, a+1, ..., b-1` in order
(empty when `b ≤ a`). -/
def pythonRange (a b : ℕ) : List ℕ := List.range' a (b - a)

/-- The epoch indices the train loop iterates over:
`for epoch in range(1, self.params['num_epochs'])`. -/
def trainEpochs (numEpochs : ℕ) : List ℕ := pythonRange 1 numEpochs

/-! ### Dataset records and schema inference (`ChemModel.load_data`, lines 80-86) -/

/-- One raw graph record as read from the JSON data file: an edge list of
`(source, edge_type, target)` triples and a per-node feature-vector list.
(The regression targets are not needed by the schema inference.) -/
structure GraphRecord where
  graph : List (ℕ × ℕ × ℕ)
  node_features : List (List ℚ)

/-- `max([e[1] for e in g['graph']])`: the largest forward edge-type index
of one record's edge list (`0` for an empty list, on which Python would
fail; the data files contain no edge-less graphs). -/
def edgeTypeMax (edges : List (ℕ × ℕ × ℕ)) : ℕ :=
  edges.foldl (fun m e => max m e.2.1) 0

/-- The `num_fwd_edge_types` accumulation of `load_data`: the maximum
forward edge-type index over all records of one loaded dataset. -/
def numFwdEdgeTypes (data : List GraphRecord) : ℕ :=
  data.foldl (fun n g => max n (edgeTypeMax g.graph)) 0

/-- One `load_data` call's update of `self.num_edge_types` (line 85):
`max(self.num_edge_types, num_fwd_edge_types * (1 if tie_fwd_bkwd else 2))`. -/
def loadNumEdgeTypes (tied : Bool) (prev : ℕ) (data : List GraphRecord) : ℕ :=
  max prev (numFwdEdgeTypes data * (if tied then 1 else 2))

/-- `self.num_edge_types` after a sequence of `load_data` calls, starting
from the `__init__` value `0`. -/
def numEdgeTypesAfter (tied : Bool) (loads : List (List GraphRecord)) : ℕ :=
  loads.foldl (loadNumEdgeTypes tied) 0

/-- `len(data[0]["node_features"][0])`: the feature-vector length of the
first node of the first record of one loaded dataset. -/
def firstAnnotationLen (data : List GraphRecord) : ℕ :=
  ((data.headD ⟨[], []⟩).node_features.headD []).length

/-- One `load_data` call's update of `self.annotation_size` (line 86):
`max(self.annotation_size, len(data[0]["node_features"][0]))`. -/
def loadAnnotationSize (prev : ℕ) (data : List GraphRecord) : ℕ :=
  max prev (firstAnnotationLen data)

/-- `self.annotation_size` after a sequence of `load_data` calls, starting
from the `__init__` value `0`. -/
def annotationSizeAfter (loads : List (List GraphRecord)) : ℕ :=
  loads.foldl loadAnnotationSize 0

/-! ### Epoch aggregation (`ChemModel.run_epoch`, lines 135-168) -/

/-- The operations `run_epoch` can fetch from the session: the loss op,
the accuracy op, and the parameter-update op `train_step`. -/
inductive Fetch where
  | lossOp : Fetch
  | accuracyOp : Fetch
  | trainStepOp : Fetch
deriving DecidableEq

/-- The fetch list `run_epoch` requests per minibatch (lines 147-152):
`[loss, accuracy, train_step]` when training, `[loss, accuracy]` when
evaluating. -/
def fetchList (isTraining : Bool) : List Fetch :=
  if isTraining then [Fetch.lossOp, Fetch.accuracyOp, Fetch.trainStepOp]
  else [Fetch.lossOp, Fetch.accuracyOp]

/-- The value fed into the `dropout_keep_prob` placeholder per minibatch
(lines 148 and 151): the configured `dropout_keep_prob` Ratio when
 training, `1.0` when evaluating. -/
def feedDropout (isTraining : Bool) (dropoutKeepProb : ℚ) : ℚ :=
  if isTraining then dropoutKeepProb else 1

/-- Running one fetch list through the session, restricted to its effect
on the trainable-parameter state `P`: the parameters change (by the
optimizer's update `trainUpdate`) exactly when `train_step` is among the
fetched operations. -/
def sessRunParams {P : Type} (trainUpdate : P → P) (fetches : List Fetch)
    (theta : P) : P :=
  if Fetch.trainStepOp ∈ fetches then trainUpdate theta else theta

/-- One minibatch as seen by `run_epoch`'s aggregation: the loss and
accuracy values the session returns for it, and its graph count
`batch_data[self.placeholders['num_graphs']]`. -/
structure BatchOutcome where
  lossVal : ℚ
  accVal : ℚ
  numGraphs : ℕ

/-- The `run_epoch` loop state: the running loss and accuracy
accumulators, the processed-graph count, the trainable parameters, and
the trace of dropout-keep-probability values fed so far. -/
structure EpochState (P : Type) where
  loss : ℚ
  accuracy : ℚ
  processedGraphs : ℕ
  theta : P
  dropoutFeeds : List ℚ

/-- One iteration of the `run_epoch` loop (lines 144-155): add the batch's
graph count to `processed_graphs`, feed the dropout probability, run the
fetch list, and accumulate `loss += result[0] * num_graphs` and
`accuracy += result[1] * num_graphs`. -/
def runBatch {P : Type} (isTraining : Bool) (dropoutKeepProb : ℚ)
    (trainUpdate : P → P) (s : EpochState P) (b : BatchOutcome) : EpochState P :=
  { loss := s.loss + b.lossVal * b.numGraphs
    accuracy := s.accuracy + b.accVal * b.numGraphs
    processedGraphs := s.processedGraphs + b.numGraphs
    theta := sessRunParams trainUpdate (fetchList isTraining) s.theta
    dropoutFeeds := s.dropoutFeeds ++ [feedDropout isTraining dropoutKeepProb] }

/-- The whole of `run_epoch` (minus wall-clock throughput): fold the batch
loop from zeroed accumulators, then divide the two accumulators by the
total processed-graph count (lines 164-165). Returns
(mean loss, mean accuracy, final parameters, dropout-feed trace). -/
def runEpoch {P : Type} (isTraining : Bool) (dropoutKeepProb : ℚ)
    (trainUpdate : P → P) (batches : List BatchOutcome) (theta0 : P) :
    ℚ × ℚ × P × List ℚ :=
  let final := batches.foldl (runBatch isTraining dropoutKeepProb trainUpdate)
    ⟨0, 0, 0, theta0, []⟩
  (final.loss / final.processedGraphs, final.accuracy / final.processedGraphs,
    final.theta, final.dropoutFeeds)

/-! ### The train loop (`ChemModel.train`, lines 170-204) -/

/-- One epoch pass's result quadruple as returned by `run_epoch`:
`(loss, accuracy, error_ratio, instance_per_sec)`. -/
structure EpochResult where
  loss : ℚ
  accuracy : ℚ
  errorRatio : ℚ
  instPerSec : ℚ
deriving DecidableEq

/-- One entry of the run log (lines 187-193). -/
structure LogEntry where
  epoch : ℕ
  time : ℚ
  train_results : EpochResult
  valid_results : EpochResult
  valid_error_rate : ℚ
deriving DecidableEq

/-- Building the log entry of one epoch: `valid_error_rate` is set to
`valid_results[2]`, the error-ratio component. -/
def mkLogEntry (epoch : ℕ) (time : ℚ) (tr vr : EpochResult) : LogEntry :=
  { epoch := epoch, time := time, train_results := tr, valid_results := vr,
    valid_error_rate := vr.errorRatio }

/-- The early-stopping tracker state: `best_val_acc` (with `none` standing
for the initial `float("+inf")`), `best_val_acc_epoch`, and the run log
accumulated so far. -/
structure TrainState where
  log : List LogEntry
  bestValAcc : Option ℚ
  bestValAccEpoch : ℕ

/-- `val_acc < best_val_acc`, where `best_val_acc` may still be the
initial `float("+inf")` (`none`), which every rational is below. -/
def ltBest (valAcc : ℚ) : Option ℚ → Bool
  | none => true
  | some best => decide (valAcc < best)

/-- The body of one train-loop iteration (lines 181-204): append the log
entry, then (line 198-204) read `val_acc = valid_results[1]`; if it is
strictly below the best so far, record it and its epoch; else if
`epoch - best_val_acc_epoch > patience`, stop; else continue. Returns the
new state and whether the loop breaks. -/
def trainEpochStep (patience : ℕ) (epoch : ℕ) (time : ℚ) (tr vr : EpochResult)
    (s : TrainState) : TrainState × Bool :=
  let s1 : TrainState := { s with log := s.log ++ [mkLogEntry epoch time tr vr] }
  let valAcc := vr.accuracy
  if ltBest valAcc s1.bestValAcc then
    ({ s1 with bestValAcc := some valAcc, bestValAccEpoch := epoch }, false)
  else if (epoch : ℤ) - (s1.bestValAccEpoch : ℤ) > (patience : ℤ) then
    (s1, true)
  else
    (s1, false)

/-- The train loop over a list of epoch indices. The per-epoch results and
the cumulative wall-clock reading are supplied by oracles `results` and
`clock` (epoch ↦ (train results, valid results), epoch ↦ elapsed time).
Returns the final state and `some e` when the loop broke out of epoch `e`
by early stopping, `none` when it exhausted the epoch list. -/
def trainLoop (patience : ℕ) (results : ℕ → EpochResult × EpochResult)
    (clock : ℕ → ℚ) : List ℕ → TrainState → TrainState × Option ℕ
  | [], s => (s, none)
  | e :: rest, s =>
    let r := results e
    let step := trainEpochStep patience e (clock e) r.1 r.2 s
    if step.2 then (step.1, some e) else trainLoop patience results clock rest step.1

/-- `ChemModel.train`: initial best is `float("+inf")` at epoch `0`, the
log starts empty, and the loop runs over `range(1, num_epochs)`. -/
def train (patience numEpochs : ℕ) (results : ℕ → EpochResult × EpochResult)
    (clock : ℕ → ℚ) : TrainState × Option ℕ :=
  trainLoop patience results clock (trainEpochs numEpochs) ⟨[], none, 0⟩

/-! ### Abstract extension points (lines 95-96, 123-133) -/

/-- `ChemModel.process_raw_graphs` (lines 95-96): the base class raises
unconditionally. -/
def process_raw_graphs {A B : Type} (rawData : A) : Except String B :=
  Except.error "Models have to implement process_raw_graphs!"

/-- `ChemModel.gated_regression` (lines 123-124): the base class raises
unconditionally. -/
def gated_regression {A B : Type} (lastH : A) : Except String B :=
  Except.error "Models have to implement gated_regression!"

/-- `ChemModel.prepare_specific_model` (lines 126-127): the base class
raises unconditionally (its Python return type is `None`, modelled as
`Unit`). -/
def prepare_specific_model : Except String Unit :=
  Except.error "Models have to implement prepare_specific_model!"

/-- `ChemModel.compute_final_node_representations` (lines 129-130): the
base class raises unconditionally. -/
def compute_final_node_representations {B : Type} : Except String B :=
  Except.error "Models have to implement compute_final_node_representations!"

/-- `ChemModel.make_minibatch_iterator` (lines 132-133): the base class
raises unconditionally. -/
def make_minibatch_iterator {A B : Type} (data : A) (isTraining : Bool) :
    Except String B :=
  Except.error "Models have to implement make_minibatch_iterator!"

/-! ### The bounded minibatch streaming queue (`run_epoch` line 143)

`run_epoch` wraps the model-supplied minibatch sequence in
`ThreadedIterator(..., max_queue_size=3)` from `utils.py`, which is not
part of the sources at hand; its behaviour is modelled from the spec. -/

/-- Modelled from the spec: the state of the `ThreadedIterator` streamer
of `utils.py` (absent from the sources) — a producer worker pushes the
model-supplied minibatches, in order, into a single bounded FIFO queue,
and the consumer (the `run_epoch` loop) pops them from its front.
`pending` is what the producer has not yet pushed, `queue` the buffered
items (front first), `consumed` what the consumer has received so far. -/
structure StreamState (A : Type) where
  pending : List A
  queue : List A
  consumed : List A

/-- Modelled from the spec: one scheduling step of the streamer. The
producer may push its next item whenever the bounded queue holds fewer
than `cap` items (the producer suspends on a full queue); the consumer
may pop the queue's front item whenever the queue is nonempty (the
consumer suspends on an empty queue). These are the only transitions:
any interleaving of them is a possible execution. -/
inductive StreamStep (cap : ℕ) {A : Type} : StreamState A → StreamState A → Prop
  | produce (x : A) (pending queue consumed : List A)
      (hroom : queue.length < cap) :
      StreamStep cap ⟨x :: pending, queue, consumed⟩
        ⟨pending, queue ++ [x], consumed⟩
  | consume (x : A) (pending queue consumed : List A) :
      StreamStep cap ⟨pending, x :: queue, consumed⟩
        ⟨pending, queue, consumed ++ [x]⟩

/-- Modelled from the spec: the executions of the streamer are the
reflexive-transitive closure of its scheduling steps. -/
def StreamReaches (cap : ℕ) {A : Type} (s t : StreamState A) : Prop :=
  Relation.ReflTransGen (StreamStep cap) s t

/-- Modelled from the spec: the streamer's start state on a model-supplied
minibatch sequence: nothing buffered, nothing consumed. -/
def streamInit {A : Type} (items : List A) : StreamState A :=
  ⟨items, [], []⟩

/-! ### Helper lemmas -/

theorem max_mul_right_nat (a b k : ℕ) : max a b * k = max (a * k) (b * k) := by
  rcases Nat.le_total a b with h | h
  · rw [Nat.max_eq_right h, Nat.max_eq_right (Nat.mul_le_mul_right k h)]
  · rw [Nat.max_eq_left h, Nat.max_eq_left (Nat.mul_le_mul_right k h)]

theorem loadNumEdgeTypes_foldl (tied : Bool) (loads : List (List GraphRecord)) :
    ∀ a : ℕ, loads.foldl (loadNumEdgeTypes tied) (a * (if tied then 1 else 2)) =
      ((loads.map numFwdEdgeTypes).foldl max a) * (if tied then 1 else 2) := by
  induction loads with
  | nil => intro a; rfl
  | cons d ds ih =>
    intro a
    have step : loadNumEdgeTypes tied (a * (if tied then 1 else 2)) d =
        (max a (numFwdEdgeTypes d)) * (if tied then 1 else 2) := by
      rw [loadNumEdgeTypes, max_mul_right_nat]
    simp only [List.foldl_cons, List.map_cons, step, ih]

theorem trainEpochStep_log (patience epoch : ℕ) (time : ℚ) (tr vr : EpochResult)
    (s : TrainState) :
    (trainEpochStep patience epoch time tr vr s).1.log =
      s.log ++ [mkLogEntry epoch time tr vr] := by
  rw [trainEpochStep]
  split
  · rfl
  · split <;> rfl

theorem trainLoop_log_epochs (patience : ℕ) (results : ℕ → EpochResult × EpochResult)
    (clock : ℕ → ℚ) (es : List ℕ) :
    ∀ s : TrainState, (trainLoop patience results clock es s).2 = none →
      (trainLoop patience results clock es s).1.log.map LogEntry.epoch =
        s.log.map LogEntry.epoch ++ es := by
  induction es with
  | nil => intro s _; simp [trainLoop]
  | cons e rest ih =>
    intro s hnone
    rw [trainLoop] at hnone ⊢
    split at hnone
    · exact absurd hnone (by simp)
    · next hne =>
      rw [if_neg hne]
      have hlog := trainEpochStep_log patience e (clock e) (results e).1 (results e).2 s
      rw [ih _ hnone, hlog]
      simp [mkLogEntry]

/-! ### Claim theorems -/

/-- Claim C6: for every defaults mapping, optional config-file mapping and
optional inline config mapping, the resolved parameter mapping equals the
defaults overridden key-by-key first by the file contents (if given) and
then by the inline contents (if given); keys absent from later sources
keep their earlier values. Concretely: defaults `{hidden_size: 100}`,
file `{hidden_size: 50}`, inline `{}` resolve `hidden_size` to `50`. -/
theorem resolveParams_override_order :
    (∀ (K V : Type) (defaults : PyDict K V)
        (fileCfg inlineCfg : Option (PyDict K V)) (k : K),
      resolveParams defaults fileCfg inlineCfg k =
        ((inlineCfg.bind fun c => c k) <|>
          ((fileCfg.bind fun f => f k) <|> defaults k))) ∧
    resolveParams (fun k : String => if k = "hidden_size" then some (100 : ℕ) else none)
      (some fun k => if k = "hidden_size" then some 50 else none)
      (some fun _ => none) "hidden_size" = some 50 := by
  constructor
  · intro K V defaults fileCfg inlineCfg k
    rcases inlineCfg with _ | c <;> rcases fileCfg with _ | f
    · rfl
    · rcases hf : f k with _ | w <;> simp [resolveParams, dictUpdate, hf]
    · rcases hc : c k with _ | v <;> simp [resolveParams, dictUpdate, hc]
    · rcases hc : c k with _ | v <;> rcases hf : f k with _ | w <;>
        simp [resolveParams, dictUpdate, hc, hf]
  · rfl

/-- Claim C5: for every configured `num_epochs`, the epoch list of the
train loop is `range(1, num_epochs)` — exactly `num_epochs - 1` epochs
with indices `1` through `num_epochs - 1` inclusive — and whenever early
stopping never triggers (the loop result carries no stopping epoch), the
epochs actually logged are exactly that list. -/
theorem train_epoch_budget (patience numEpochs : ℕ)
    (results : ℕ → EpochResult × EpochResult) (clock : ℕ → ℚ) :
    (trainEpochs numEpochs).length = numEpochs - 1 ∧
    (∀ e, e ∈ trainEpochs numEpochs ↔ 1 ≤ e ∧ e ≤ numEpochs - 1) ∧
    ((train patience numEpochs results clock).2 = none →
      (train patience numEpochs results clock).1.log.map LogEntry.epoch =
        trainEpochs numEpochs) := by
  refine ⟨?_, ?_, ?_⟩
  · rw [trainEpochs, pythonRange, List.length_range']
  · intro e
    rw [trainEpochs, pythonRange, List.mem_range'_1]
    omega
  · intro hnone
    have h := trainLoop_log_epochs patience results clock (trainEpochs numEpochs)
      ⟨[], none, 0⟩ hnone
    simpa [train] using h

/-- Witness for C5 at a concrete run: patience 2, `num_epochs = 3`,
constant epoch results (no early stop occurs), so epochs `[1, 2]` are
logged. -/
theorem train_epoch_budget_witness :
    (train 2 3 (fun _ => (⟨0, 0, 0, 0⟩, ⟨0, 0, 0, 0⟩)) (fun _ => 0)).1.log.map
      LogEntry.epoch = trainEpochs 3 :=
  (train_epoch_budget 2 3 (fun _ => (⟨0, 0, 0, 0⟩, ⟨0, 0, 0, 0⟩))
    (fun _ => 0)).2.2 (by decide)

/-- Claim C8: each of the five base-class extension points —
`process_raw_graphs`, `gated_regression`, `prepare_specific_model`,
`compute_final_node_representations`, `make_minibatch_iterator` — fails
with its "Models have to implement ...!" error for every input; none of
them returns normally. -/
theorem abstract_hooks_all_raise :
    (∀ (A B : Type) (x : A), @process_raw_graphs A B x =
      Except.error "Models have to implement process_raw_graphs!") ∧
    (∀ (A B : Type) (x : A), @gated_regression A B x =
      Except.error "Models have to implement gated_regression!") ∧
    (prepare_specific_model =
      Except.error "Models have to implement prepare_specific_model!") ∧
    (∀ (B : Type), @compute_final_node_representations B =
      Except.error "Models have to implement compute_final_node_representations!") ∧
    (∀ (A B : Type) (x : A) (b : Bool), @make_minibatch_iterator A B x b =
      Except.error "Models have to implement make_minibatch_iterator!") :=
  ⟨fun _ _ _ => rfl, fun _ _ _ => rfl, rfl, fun _ => rfl, fun _ _ _ _ => rfl⟩

theorem foldl_max_le (xs : List ℕ) : ∀ a : ℕ, (∀ x ∈ xs, x ≤ a) → xs.foldl max a = a := by
  induction xs with
  | nil => intro a _; rfl
  | cons x rest ih =>
    intro a h
    rw [List.foldl_cons, Nat.max_eq_left (h x (by simp))]
    exact ih a fun y hy => h y (by simp [hy])

/-- Claim C4: for every sequence of `load_data` calls with a fixed
`tie_fwd_bkwd` flag, `num_edge_types` afterwards equals the maximum over
all loads of that load's maximum forward edge-type index, multiplied by 1
if directions are tied and 2 otherwise. Concretely: a load with maximum
forward edge type 2 followed by one with maximum 3, untied, yields
`num_edge_types = 6`. -/
theorem num_edge_types_running_max :
    (∀ (tied : Bool) (loads : List (List GraphRecord)),
      numEdgeTypesAfter tied loads =
        ((loads.map numFwdEdgeTypes).foldl max 0) * (if tied then 1 else 2)) ∧
    numEdgeTypesAfter false
      [[⟨[(0, 2, 1)], [[0]]⟩], [⟨[(0, 3, 1)], [[0]]⟩]] = 6 := by
  constructor
  · intro tied loads
    have h := loadNumEdgeTypes_foldl tied loads 0
    simpa [numEdgeTypesAfter] using h
  · decide

/-- Claim C3 counterexample: `annotation_size` is not fixed by the first
load. Loading a dataset whose single record has one edge `(0, 1, 1)` and
2-component node features, then one whose single record has one edge and
3-component features, leaves `annotation_size = 3`, not the first load's
value `2` — line 86 takes a running maximum across `load_data` calls.
(Both records carry a nonempty edge list, so the schema scan of line 83
traverses them without error and line 86 is reached on each load.) -/
theorem annotation_size_first_load_cex :
    annotationSizeAfter [[⟨[(0, 1, 1)], [[0, 0]]⟩], [⟨[(0, 1, 1)], [[0, 0, 0]]⟩]] ≠
      firstAnnotationLen [⟨[(0, 1, 1)], [[0, 0]]⟩] := by
  decide

/-- Claim C3 amended: after every sequence of `load_data` calls,
`annotation_size` is the running maximum over all loads of each load's
first-record first-node feature-vector length; in particular it equals
the first load's value exactly in the case that no later load reports a
larger one. -/
theorem annotation_size_running_max (loads : List (List GraphRecord))
    (d : List GraphRecord) (rest : List (List GraphRecord))
    (hmax : ∀ d' ∈ rest, firstAnnotationLen d' ≤ firstAnnotationLen d) :
    annotationSizeAfter loads = (loads.map firstAnnotationLen).foldl max 0 ∧
    annotationSizeAfter (d :: rest) = firstAnnotationLen d := by
  have hfold : ∀ (ls : List (List GraphRecord)) (a : ℕ),
      ls.foldl loadAnnotationSize a = (ls.map firstAnnotationLen).foldl max a := by
    intro ls a
    rw [List.foldl_map]
    rfl
  constructor
  · exact hfold loads 0
  · rw [annotationSizeAfter, List.foldl_cons, hfold rest]
    have h0 : loadAnnotationSize 0 d = firstAnnotationLen d := Nat.zero_max _
    rw [h0]
    exact foldl_max_le _ _ fun x hx => by
      obtain ⟨d', hd', hx'⟩ := List.mem_map.mp hx
      exact hx' ▸ hmax d' hd'

/-- Witness for the amended C3 at a concrete input: a first load with
3-component features followed by one with 2-component features keeps
`annotation_size` at the first load's value 3 (each record carries one
edge, so line 83's scan succeeds and line 86 is reached on each load). -/
theorem annotation_size_running_max_witness :
    annotationSizeAfter [[⟨[(0, 1, 1)], [[0, 0, 0]]⟩], [⟨[(0, 1, 1)], [[0, 0]]⟩]] =
      firstAnnotationLen [⟨[(0, 1, 1)], [[0, 0, 0]]⟩] :=
  (annotation_size_running_max
    [[⟨[(0, 1, 1)], [[0, 0, 0]]⟩], [⟨[(0, 1, 1)], [[0, 0]]⟩]]
    [⟨[(0, 1, 1)], [[0, 0, 0]]⟩] [[⟨[(0, 1, 1)], [[0, 0]]⟩]] (by decide)).2

theorem sessRunParams_noTrain {P : Type} (u : P → P) (theta : P) :
    sessRunParams u (fetchList false) theta = theta := by
  rw [sessRunParams, if_neg]
  decide

theorem runBatch_foldl_spec {P : Type} (isTraining : Bool) (d : ℚ) (u : P → P)
    (batches : List BatchOutcome) : ∀ s : EpochState P,
    ((batches.foldl (runBatch isTraining d u) s).loss =
        s.loss + (batches.map fun b => b.lossVal * (b.numGraphs : ℚ)).sum) ∧
    ((batches.foldl (runBatch isTraining d u) s).accuracy =
        s.accuracy + (batches.map fun b => b.accVal * (b.numGraphs : ℚ)).sum) ∧
    ((batches.foldl (runBatch isTraining d u) s).processedGraphs =
        s.processedGraphs + (batches.map BatchOutcome.numGraphs).sum) ∧
    ((batches.foldl (runBatch isTraining d u) s).dropoutFeeds =
        s.dropoutFeeds ++ List.replicate batches.length (feedDropout isTraining d)) ∧
    (isTraining = false →
      (batches.foldl (runBatch isTraining d u) s).theta = s.theta) := by
  induction batches with
  | nil => intro s; simp
  | cons b bs ih =>
    intro s
    obtain ⟨h1, h2, h3, h4, h5⟩ := ih (runBatch isTraining d u s b)
    rw [List.foldl_cons]
    refine ⟨?_, ?_, ?_, ?_, ?_⟩
    · rw [h1]; simp [runBatch]; ring
    · rw [h2]; simp [runBatch]; ring
    · rw [h3]; simp [runBatch]; omega
    · rw [h4]; simp [runBatch, List.replicate_succ]
    · intro hf
      rw [h5 hf, hf]
      simp [runBatch, sessRunParams_noTrain]

/-- Claim C2: for every sequence of minibatches with per-batch losses,
accuracies and graph counts (total graph count nonzero), `run_epoch`
returns the graph-count-weighted means
`sum(loss_i * graphs_i) / sum(graphs_i)` and
`sum(acc_i * graphs_i) / sum(graphs_i)`, not batch means. Concretely,
batches `(loss 1, count 1)` and `(loss 3, count 3)` aggregate to loss
`5/2 = 2.5`, not `2`. -/
theorem runEpoch_weighted_mean :
    (∀ (P : Type) (isTraining : Bool) (d : ℚ) (u : P → P)
        (batches : List BatchOutcome) (theta0 : P),
      (batches.map BatchOutcome.numGraphs).sum ≠ 0 →
      (runEpoch isTraining d u batches theta0).1 =
          (batches.map fun b => b.lossVal * (b.numGraphs : ℚ)).sum /
            ((batches.map BatchOutcome.numGraphs).sum : ℚ) ∧
      (runEpoch isTraining d u batches theta0).2.1 =
          (batches.map fun b => b.accVal * (b.numGraphs : ℚ)).sum /
            ((batches.map BatchOutcome.numGraphs).sum : ℚ)) ∧
    ((runEpoch false 1 (fun u : Unit => u) [⟨1, 0, 1⟩, ⟨3, 0, 3⟩] ()).1 = 5 / 2 ∧
      (5 : ℚ) / 2 ≠ 2) := by
  constructor
  · intro P isTraining d u batches theta0 _
    obtain ⟨h1, h2, h3, _, _⟩ :=
      runBatch_foldl_spec isTraining d u batches ⟨0, 0, 0, theta0, []⟩
    rw [runEpoch]
    constructor
    · rw [h1, h3]; simp
    · rw [h2, h3]; simp
  · constructor
    · rw [runEpoch]
      norm_num [runBatch, List.foldl_cons, List.foldl_nil]
    · norm_num

/-- Witness for C2's general statement at the two concrete batches
`(loss 1, acc 2, count 1)` and `(loss 3, acc 4, count 3)`. -/
theorem runEpoch_weighted_mean_witness :
    (runEpoch true 1 (fun u : Unit => u) [⟨1, 2, 1⟩, ⟨3, 4, 3⟩] ()).1 =
        (([⟨1, 2, 1⟩, ⟨3, 4, 3⟩] : List BatchOutcome).map
          fun b => b.lossVal * (b.numGraphs : ℚ)).sum /
          ((([⟨1, 2, 1⟩, ⟨3, 4, 3⟩] : List BatchOutcome).map
            BatchOutcome.numGraphs).sum : ℚ) :=
  (runEpoch_weighted_mean.1 Unit true 1 (fun u => u)
    [⟨1, 2, 1⟩, ⟨3, 4, 3⟩] () (by decide)).1

/-- Claim C7: in a validation pass (`is_training = False`) `run_epoch`
feeds `1.0` for the dropout-keep probability on every minibatch
(regardless of the configured value) and fetches only loss and accuracy —
the parameter-update op is not requested, so the trainable parameters
after the pass equal those before it. In a training pass the configured
`dropout_keep_prob` is fed and `train_step` is in the fetch list. -/
theorem run_epoch_validation_frame {P : Type} (dropoutKeepProb : ℚ) (u : P → P)
    (batches : List BatchOutcome) (theta0 : P) :
    (runEpoch false dropoutKeepProb u batches theta0).2.2.1 = theta0 ∧
    (runEpoch false dropoutKeepProb u batches theta0).2.2.2 =
      List.replicate batches.length 1 ∧
    fetchList false = [Fetch.lossOp, Fetch.accuracyOp] ∧
    Fetch.trainStepOp ∉ fetchList false ∧
    (runEpoch true dropoutKeepProb u batches theta0).2.2.2 =
      List.replicate batches.length dropoutKeepProb ∧
    Fetch.trainStepOp ∈ fetchList true := by
  obtain ⟨_, _, _, hf4, hf5⟩ :=
    runBatch_foldl_spec false dropoutKeepProb u batches
      (⟨0, 0, 0, theta0, []⟩ : EpochState P)
  obtain ⟨_, _, _, ht4, _⟩ :=
    runBatch_foldl_spec true dropoutKeepProb u batches
      (⟨0, 0, 0, theta0, []⟩ : EpochState P)
  refine ⟨?_, ?_, by decide, by decide, ?_, by decide⟩
  · rw [runEpoch]; exact hf5 rfl
  · rw [runEpoch]; rw [hf4]; simp [feedDropout]
  · rw [runEpoch]; rw [ht4]; simp [feedDropout]

/-- Claim C1: after each epoch's validation pass, if the current
validation accuracy is strictly below the best seen so far the best value
and best epoch are updated to the current ones and the loop continues; if
not and `epoch - best_epoch > patience` the loop stops; otherwise it
continues — and on validation accuracies `[5, 4, 6, 7, 8]` with patience
2 the best is recorded at epoch 2 (value 4) and the loop stops after
epoch 5 since `5 - 2 > 2`. -/
theorem train_early_stopping :
    (∀ (patience epoch : ℕ) (time : ℚ) (tr vr : EpochResult) (s : TrainState),
      (ltBest vr.accuracy s.bestValAcc = true →
        trainEpochStep patience epoch time tr vr s =
          ({ log := s.log ++ [mkLogEntry epoch time tr vr],
             bestValAcc := some vr.accuracy, bestValAccEpoch := epoch }, false)) ∧
      (ltBest vr.accuracy s.bestValAcc = false →
        (epoch : ℤ) - (s.bestValAccEpoch : ℤ) > (patience : ℤ) →
        trainEpochStep patience epoch time tr vr s =
          ({ log := s.log ++ [mkLogEntry epoch time tr vr],
             bestValAcc := s.bestValAcc,
             bestValAccEpoch := s.bestValAccEpoch }, true)) ∧
      (ltBest vr.accuracy s.bestValAcc = false →
        ¬((epoch : ℤ) - (s.bestValAccEpoch : ℤ) > (patience : ℤ)) →
        trainEpochStep patience epoch time tr vr s =
          ({ log := s.log ++ [mkLogEntry epoch time tr vr],
             bestValAcc := s.bestValAcc,
             bestValAccEpoch := s.bestValAccEpoch }, false))) ∧
    ((train 2 10 (fun e =>
        (⟨0, 0, 0, 0⟩, ⟨0, ([5, 4, 6, 7, 8] : List ℚ).getD (e - 1) 0, 0, 0⟩))
        (fun _ => 0)).1.bestValAcc = some 4 ∧
      (train 2 10 (fun e =>
        (⟨0, 0, 0, 0⟩, ⟨0, ([5, 4, 6, 7, 8] : List ℚ).getD (e - 1) 0, 0, 0⟩))
        (fun _ => 0)).1.bestValAccEpoch = 2 ∧
      (train 2 10 (fun e =>
        (⟨0, 0, 0, 0⟩, ⟨0, ([5, 4, 6, 7, 8] : List ℚ).getD (e - 1) 0, 0, 0⟩))
        (fun _ => 0)).2 = some 5) := by
  constructor
  · intro patience epoch time tr vr s
    refine ⟨?_, ?_, ?_⟩
    · intro h
      simp [trainEpochStep, h]
    · intro h1 h2
      simp [trainEpochStep, h1, h2]
    · intro h1 h2
      simp [trainEpochStep, h1, h2]
  · refine ⟨?_, ?_, ?_⟩ <;> decide

/-- Witness for the early-stopping branch of C1: at epoch 5 with best
value 4 recorded at epoch 2 and patience 2, a validation accuracy of 8
triggers the stop (`5 - 2 > 2`) and leaves the best pair untouched. -/
theorem train_early_stopping_witness :
    trainEpochStep 2 5 0 ⟨0, 0, 0, 0⟩ ⟨0, 8, 0, 0⟩ ⟨[], some 4, 2⟩ =
      ({ log := [mkLogEntry 5 0 ⟨0, 0, 0, 0⟩ ⟨0, 8, 0, 0⟩],
         bestValAcc := some 4, bestValAccEpoch := 2 }, true) :=
  (train_early_stopping.1 2 5 0 ⟨0, 0, 0, 0⟩ ⟨0, 8, 0, 0⟩ ⟨[], some 4, 2⟩).2.1
    (by decide) (by decide)

theorem trainLoop_log_invariant (patience : ℕ)
    (results : ℕ → EpochResult × EpochResult) (clock : ℕ → ℚ) (es : List ℕ) :
    ∀ s : TrainState,
      (∀ e ∈ s.log, e.valid_error_rate = e.valid_results.errorRatio) →
      ∀ entry ∈ (trainLoop patience results clock es s).1.log,
        entry.valid_error_rate = entry.valid_results.errorRatio := by
  induction es with
  | nil => intro s hs entry hm; exact hs entry hm
  | cons e rest ih =>
    intro s hs entry hm
    have hstepinv : ∀ e' ∈ (trainEpochStep patience e (clock e) (results e).1
        (results e).2 s).1.log, e'.valid_error_rate = e'.valid_results.errorRatio := by
      intro e' he'
      rw [trainEpochStep_log] at he'
      rcases List.mem_append.mp he' with h | h
      · exact hs e' h
      · rw [List.mem_singleton.mp h]
        rfl
    rw [trainLoop] at hm
    by_cases hstop :
        (trainEpochStep patience e (clock e) (results e).1 (results e).2 s).2 = true
    · rw [if_pos hstop] at hm
      exact hstepinv entry hm
    · rw [if_neg hstop] at hm
      exact ih _ hstepinv entry hm

/-- Claim C10: every entry the train loop appends to the run log has its
`valid_error_rate` field equal to the error-ratio component of that same
entry's `valid_results` quadruple. -/
theorem log_valid_error_rate (patience numEpochs : ℕ)
    (results : ℕ → EpochResult × EpochResult) (clock : ℕ → ℚ) (entry : LogEntry)
    (hmem : entry ∈ (train patience numEpochs results clock).1.log) :
    entry.valid_error_rate = entry.valid_results.errorRatio :=
  trainLoop_log_invariant patience results clock (trainEpochs numEpochs)
    ⟨[], none, 0⟩ (by intro e he; cases he) entry hmem

/-- Witness for C10: the single entry logged by a one-epoch run (with
validation results `(1, 2, 3, 4)`) satisfies the field equation. -/
theorem log_valid_error_rate_witness :
    (mkLogEntry 1 0 ⟨0, 0, 0, 0⟩ ⟨1, 2, 3, 4⟩).valid_error_rate =
      (mkLogEntry 1 0 ⟨0, 0, 0, 0⟩ ⟨1, 2, 3, 4⟩).valid_results.errorRatio :=
  log_valid_error_rate 0 2 (fun _ => (⟨0, 0, 0, 0⟩, ⟨1, 2, 3, 4⟩)) (fun _ => 0)
    (mkLogEntry 1 0 ⟨0, 0, 0, 0⟩ ⟨1, 2, 3, 4⟩) (by decide)

theorem streamStep_invariant {A : Type} (cap : ℕ) (s t : StreamState A)
    (h : StreamStep cap s t) :
    t.consumed ++ t.queue ++ t.pending = s.consumed ++ s.queue ++ s.pending := by
  cases h with
  | produce x pending queue consumed hroom => simp
  | consume x pending queue consumed => simp

theorem streamReaches_invariant {A : Type} (cap : ℕ) (s t : StreamState A)
    (h : StreamReaches cap s t) :
    t.consumed ++ t.queue ++ t.pending = s.consumed ++ s.queue ++ s.pending := by
  induction h with
  | refl => rfl
  | tail _ hstep ih => rw [streamStep_invariant cap _ _ hstep, ih]

/-- Claim C9 (the streamer is modelled from the spec, see `StreamStep`):
under every interleaving of producer and consumer steps of the bounded
(capacity 3) queue, the consumed list is at all times an order-preserving
prefix of the model-supplied minibatch sequence, and once the producer is
done and the queue drained the consumer has received exactly the supplied
sequence in the order it was yielded. -/
theorem stream_fifo_order {A : Type} (items : List A) (t : StreamState A)
    (hreach : StreamReaches 3 (streamInit items) t) :
    t.consumed ++ t.queue ++ t.pending = items ∧
    (t.pending = [] → t.queue = [] → t.consumed = items) := by
  have h := streamReaches_invariant 3 (streamInit items) t hreach
  simp only [streamInit, List.nil_append] at h
  refine ⟨h, fun hp hq => ?_⟩
  rw [hp, hq] at h
  simpa using h

/-- Witness for C9: a full schedule on the sequence `[1, 2, 3]` — three
producer pushes (each fitting the capacity-3 queue) followed by three
consumer pops — ends with exactly `[1, 2, 3]` consumed, in order. -/
theorem stream_fifo_order_witness :
    (⟨[], [], [1, 2, 3]⟩ : StreamState ℕ).consumed = [1, 2, 3] := by
  have h1 : StreamStep 3 (streamInit [1, 2, 3]) ⟨[2, 3], [1], []⟩ :=
    StreamStep.produce 1 [2, 3] [] [] (by decide)
  have h2 : StreamStep 3 (⟨[2, 3], [1], []⟩ : StreamState ℕ) ⟨[3], [1, 2], []⟩ :=
    StreamStep.produce 2 [3] [1] [] (by decide)
  have h3 : StreamStep 3 (⟨[3], [1, 2], []⟩ : StreamState ℕ) ⟨[], [1, 2, 3], []⟩ :=
    StreamStep.produce 3 [] [1, 2] [] (by decide)
  have h4 : StreamStep 3 (⟨[], [1, 2, 3], []⟩ : StreamState ℕ) ⟨[], [2, 3], [1]⟩ :=
    StreamStep.consume 1 [] [2, 3] []
  have h5 : StreamStep 3 (⟨[], [2, 3], [1]⟩ : StreamState ℕ) ⟨[], [3], [1, 2]⟩ :=
    StreamStep.consume 2 [] [3] [1]
  have h6 : StreamStep 3 (⟨[], [3], [1, 2]⟩ : StreamState ℕ) ⟨[], [], [1, 2, 3]⟩ :=
    StreamStep.consume 3 [] [] [1, 2]
  exact (stream_fifo_order [1, 2, 3] ⟨[], [], [1, 2, 3]⟩
    (Relation.ReflTransGen.head h1 (Relation.ReflTransGen.head h2
      (Relation.ReflTransGen.head h3 (Relation.ReflTransGen.head h4
        (Relation.ReflTransGen.head h5 (Relation.ReflTransGen.head h6
          Relation.ReflTransGen.refl))))))).2 rfl rfl
